import Mathlib

/-!
Shallow embedding of the `DataTable` component of the UI-Library repository
(source: `src/unnamed/part_001`).  The component's derived-state engine is
modelled as pure Lean functions: the value comparator `compare`, the stable
sort `sortedData`, the pagination `totalPages` / `paginatedData`, the sort
state machine `handleSort`, the selection handlers `handleSelectRow` /
`handleSelectAll` with their `notifySelection` payload, the two
page-maintenance effects (`effectFlush`, `dataUpdatePage`) and a whole
component step relation `step` over props plus state.
-/

namespace DataTable

/-- Cell values as seen by the comparator: JavaScript `null`/`undefined`
(both satisfy `a == null` in the source), numbers (modelled as integers),
and strings. -/
inductive Value
  | null
  | num (n : Int)
  | str (s : String)
deriving DecidableEq, Repr

/-- Row identifiers: the source requires `T extends { id: string | number }`. -/
abbrev RowId := Int ⊕ String

/-- A data row: a unique id plus named fields.  Field access in the source is
`row[key]`; a missing key yields `undefined`, i.e. `Value.null` here. -/
structure Row where
  id : RowId
  fields : List (String × Value)
deriving DecidableEq, Repr

/-- Model of `row[key]`: association-list lookup, absent keys give `null`. -/
def getField (r : Row) (k : String) : Value :=
  match r.fields.find? (fun p => p.1 == k) with
  | some p => p.2
  | none => Value.null

/-- Tokens of the numeric-aware string comparison: maximal digit runs are
read as numbers, any other character is compared case-insensitively. -/
inductive Tok
  | num (n : Nat)
  | ch (c : Char)
deriving DecidableEq, Repr

/-- Tokenizer for `localeCompare(..., \x7b numeric: true, sensitivity: 'base' \x7d)`:
digit runs become numeric tokens (leading zeros collapse, as ICU numeric
collation treats them), other characters are folded to lower case.  The
accumulator holds the value of the digit run currently being read. -/
def tokensAux : Option Nat → List Char → List Tok
  | none, [] => []
  | some n, [] => [Tok.num n]
  | none, c :: cs =>
      if c.isDigit then tokensAux (some (c.toNat - 48)) cs
      else Tok.ch c.toLower :: tokensAux none cs
  | some n, c :: cs =>
      if c.isDigit then tokensAux (some (10 * n + (c.toNat - 48))) cs
      else Tok.num n :: Tok.ch c.toLower :: tokensAux none cs

/-- Token list of a string. -/
def tokens (s : String) : List Tok :=
  tokensAux none s.toList

/-- Ordering of single tokens: numbers compare numerically, characters by
code point (after case folding), and a number sorts before a character. -/
def tokCmp : Tok → Tok → Ordering
  | Tok.num m, Tok.num n => if m < n then .lt else if n < m then .gt else .eq
  | Tok.num _, Tok.ch _ => .lt
  | Tok.ch _, Tok.num _ => .gt
  | Tok.ch c, Tok.ch d => if c < d then .lt else if d < c then .gt else .eq

/-- Lexicographic ordering on token lists. -/
def lexCmp : List Tok → List Tok → Ordering
  | [], [] => .eq
  | [], _ :: _ => .lt
  | _ :: _, [] => .gt
  | x :: xs, y :: ys =>
      match tokCmp x y with
      | .eq => lexCmp xs ys
      | o => o

/-- An `Ordering` as the sign the comparator returns. -/
def ordToInt : Ordering → Int
  | .lt => -1
  | .eq => 0
  | .gt => 1

/-- Model of `sa.localeCompare(sb, undefined, \x7b numeric: true, sensitivity: 'base' \x7d)`:
case-insensitive, numeric-substring-aware string comparison. -/
def strCmp (a b : String) : Int :=
  ordToInt (lexCmp (tokens a) (tokens b))

/-- Model of JavaScript `String(a)` for the values `compare` stringifies.
`compare` handles `null` before this point, so the `null` arm is unreachable
there. -/
def jsToString : Value → String
  | Value.null => ""
  | Value.num n => toString n
  | Value.str s => s

/-- The source's `compare` (part_001 lines 43-51): nulls first and equal to
each other, numeric difference for two numbers, numeric-aware
case-insensitive string comparison otherwise. -/
def compare : Value → Value → Int
  | Value.null, Value.null => 0
  | Value.null, _ => -1
  | _, Value.null => 1
  | Value.num m, Value.num n => m - n
  | a, b => strCmp (jsToString a) (jsToString b)

/-- Sort direction of `sortConfig.direction`. -/
inductive Direction
  | asc
  | desc
deriving DecidableEq, Repr

/-- The component's `sortConfig` when non-null. -/
structure SortConfig where
  key : String
  direction : Direction
deriving DecidableEq, Repr

/-- The comparator passed to `sort` in `sortedData`: compares the
`sortConfig.key` fields and negates the result for descending order. -/
def rowCmp (c : SortConfig) (x y : Row) : Int :=
  let a := getField x c.key
  let b := getField y c.key
  let cmp := compare a b
  if c.direction = Direction.asc then cmp else -cmp

/-- The boolean "not after" relation induced by `rowCmp`: a stable comparator
sort keeps `x` before `y` exactly when `rowCmp c x y ≤ 0`. -/
def rowLe (c : SortConfig) (x y : Row) : Bool :=
  decide (rowCmp c x y ≤ 0)

/-- Stable insertion of `x` into `l`: `x` goes in front of the first element
it is not strictly after.  `sortS` inserts the head of the input into the
sorted tail, so an element lands in front of the later input elements it
compares equal to, which is exactly comparator-sort stability. -/
def insertS {α : Type} (le : α → α → Bool) (x : α) : List α → List α
  | [] => [x]
  | y :: ys => if le x y then x :: y :: ys else y :: insertS le x ys

/-- Stable sort by a boolean comparator relation; models the (specified
stable) JavaScript `Array.prototype.sort` with comparator `rowCmp`. -/
def sortS {α : Type} (le : α → α → Bool) : List α → List α
  | [] => []
  | x :: xs => insertS le x (sortS le xs)

/-- The derived `sortedData` memo (part_001 lines 53-62): the input copy when
`sortConfig` is null, otherwise a stable comparator sort of a copy. -/
def sortedData (data : List Row) (sc : Option SortConfig) : List Row :=
  match sc with
  | none => data
  | some c => sortS (rowLe c) data

/-- The derived `totalPages` (part_001 line 64):
`Math.max(1, Math.ceil(data.length / itemsPerPage))`; for a positive page
size, `Math.ceil(len / ps) = (len + ps - 1) / ps` in integer arithmetic. -/
def totalPages (len itemsPerPage : Nat) : Nat :=
  max 1 ((len + itemsPerPage - 1) / itemsPerPage)

/-- The derived `paginatedData` (part_001 lines 69-72):
`sortedRows.slice(start, start + itemsPerPage)` with
`start = (currentPage - 1) * itemsPerPage`. -/
def paginatedData {α : Type} (sorted : List α) (currentPage itemsPerPage : Nat) : List α :=
  (sorted.drop ((currentPage - 1) * itemsPerPage)).take itemsPerPage

/-- The `handleSort` transition (part_001 lines 74-82) on the sort
configuration: non-sortable columns do nothing; a repeated key toggles the
direction; any other key starts ascending. -/
def handleSort (prev : Option SortConfig) (key : String) (sortable : Bool) :
    Option SortConfig :=
  if !sortable then prev
  else
    match prev with
    | some c =>
        if c.key = key then
          some { key := key,
                 direction := if c.direction = Direction.asc then Direction.desc
                              else Direction.asc }
        else some { key := key, direction := Direction.asc }
    | none => some { key := key, direction := Direction.asc }

/-- Selection mode prop (`selectionMode`), default `multiple`. -/
inductive Mode
  | single
  | multiple
deriving DecidableEq, Repr

/-- The source's `notifySelection` (part_001 lines 84-87): materializes the
ids into rows by filtering the full `data` prop, keeping its order. -/
def notifySelection (data : List Row) (ids : Finset RowId) : List Row :=
  data.filter (fun d => decide (d.id ∈ ids))

/-- The `handleSelectRow` transition (part_001 lines 89-106).  Returns the
new selection set and, when the handler ran, the list handed to the
`onRowSelect` callback (`none` models "no callback invoked"). -/
def handleSelectRow (selectable : Bool) (mode : Mode) (data : List Row)
    (r : Row) (prev : Finset RowId) : Finset RowId × Option (List Row) :=
  if selectable = false then (prev, none)
  else
    let next :=
      if mode = Mode.single then
        if r.id ∈ prev then (∅ : Finset RowId) else {r.id}
      else
        if r.id ∈ prev then prev.erase r.id else insert r.id prev
    (next, some (notifySelection data next))

/-- The `handleSelectAll` transition (part_001 lines 108-119): early return
unless selectable and in multiple mode; clears when the selection size
equals `data.length`, otherwise selects every row id. -/
def handleSelectAll (selectable : Bool) (mode : Mode) (data : List Row)
    (prev : Finset RowId) : Finset RowId × Option (List Row) :=
  if selectable = false ∨ mode = Mode.single then (prev, none)
  else if prev.card = data.length then
    ((∅ : Finset RowId), some (notifySelection data (∅ : Finset RowId)))
  else
    let all := (data.map (fun r => r.id)).toFinset
    (all, some (notifySelection data all))

/-- Model of `goToNext` (part_001 line 121): `Math.min(p + 1, totalPages)`. -/
def goToNext (len itemsPerPage p : Nat) : Nat :=
  min (p + 1) (totalPages len itemsPerPage)

/-- Model of `goToPrev` (part_001 line 122): `Math.max(1, p - 1)`. -/
def goToPrev (p : Nat) : Nat :=
  max 1 (p - 1)

/-- One pass of the two `useEffect`s (part_001 lines 38-41 and 65-67) over
`currentPage`, after a render whose dependency values are `curLen`,
`curPage` against the previous render's `prevLen`, `prevPage`.  Effects run
in declaration order and their `setCurrentPage` calls are batched, so the
clamp effect's write (made with the stale render-scope `curPage`)
overwrites the reset effect's write when both fire. -/
def effectFlush (prevLen prevPage curLen curPage itemsPerPage : Nat) : Nat :=
  let tpPrev := totalPages prevLen itemsPerPage
  let tp := totalPages curLen itemsPerPage
  let afterReset := if curLen ≠ prevLen then 1 else curPage
  if (tp ≠ tpPrev ∨ curPage ≠ prevPage) ∧ tp < curPage then tp else afterReset

/-- The settled `currentPage` after the `data` prop changes length: the
render with the new data flushes both effects once, and the re-render
caused by the state write flushes them again (the second pass is already a
fixed point, see `effectFlush_settled`). -/
def dataUpdatePage (prevLen page curLen itemsPerPage : Nat) : Nat :=
  let p1 := effectFlush prevLen page curLen page itemsPerPage
  effectFlush curLen page curLen p1 itemsPerPage

/-- Component configuration props that the engine reads. -/
structure Config where
  selectable : Bool
  mode : Mode
  itemsPerPage : Nat
deriving DecidableEq, Repr

/-- The three state cells of the component. -/
structure TableState where
  sortConfig : Option SortConfig
  selectedRows : Finset RowId
  currentPage : Nat
deriving DecidableEq

/-- A component snapshot: configuration, current `data` prop, state. -/
structure Table where
  cfg : Config
  data : List Row
  state : TableState
deriving DecidableEq

/-- Externally triggered events of the component. -/
inductive Event
  | dataChange (newData : List Row)
  | rowClick (r : Row)
  | selectAllClick
  | headerClick (key : String) (sortable : Bool)
  | nextPage
  | prevPage
deriving DecidableEq

/-- One event step of the component: the next snapshot plus the payload
passed to `onRowSelect`, when the event invoked it.  A `dataChange` runs the
page-maintenance effects to their fixed point; the remaining events mirror
the source handlers (whose page writes never re-trigger an effect write,
since they stay within `1..totalPages`). -/
def step (t : Table) : Event → Table × Option (List Row)
  | Event.dataChange d =>
      ({ t with
          data := d,
          state := { t.state with
            currentPage := dataUpdatePage t.data.length t.state.currentPage
              d.length t.cfg.itemsPerPage } }, none)
  | Event.rowClick r =>
      let res := handleSelectRow t.cfg.selectable t.cfg.mode t.data r
        t.state.selectedRows
      ({ t with state := { t.state with selectedRows := res.1 } }, res.2)
  | Event.selectAllClick =>
      let res := handleSelectAll t.cfg.selectable t.cfg.mode t.data
        t.state.selectedRows
      ({ t with state := { t.state with selectedRows := res.1 } }, res.2)
  | Event.headerClick k s =>
      ({ t with state := { t.state with
          sortConfig := handleSort t.state.sortConfig k s } }, none)
  | Event.nextPage =>
      ({ t with state := { t.state with
          currentPage := goToNext t.data.length t.cfg.itemsPerPage
            t.state.currentPage } }, none)
  | Event.prevPage =>
      ({ t with state := { t.state with
          currentPage := goToPrev t.state.currentPage } }, none)

/-- Fold a list of events, keeping only the snapshots. -/
def run (t : Table) (evs : List Event) : Table :=
  evs.foldl (fun s e => (step s e).1) t

/-- A sample row with a numeric id and a single `age` field. -/
def mkRow (i : Int) (v : Value) : Row :=
  { id := Sum.inl i, fields := [("age", v)] }

/-- A dataset of `n` rows with distinct ids and ages. -/
def dataN (n : Nat) : List Row :=
  (List.range n).map (fun i => mkRow i (Value.num i))

/-- The spec's concrete scenario rows (section 8): ages 30, 25, 35. -/
def rows3 : List Row :=
  [mkRow 1 (Value.num 30), mkRow 2 (Value.num 25), mkRow 3 (Value.num 35)]

/-- Rows with a duplicated sort-key value (ages 30, 25, 25). -/
def rowsDup : List Row :=
  [mkRow 1 (Value.num 30), mkRow 2 (Value.num 25), mkRow 3 (Value.num 25)]

/-- Ascending sort on the `age` column. -/
def cfgAge : SortConfig :=
  { key := "age", direction := Direction.asc }

/-- Rows whose `age` values form a comparator cycle: the two numbers compare
numerically (-5 before -3) but each compares against the string "-4" by
numeric-aware string comparison, where "-3" sorts before "-4" before "-5". -/
def dataCyc : List Row :=
  [mkRow 1 (Value.num (-5)), mkRow 2 (Value.num (-3)), mkRow 3 (Value.str "-4")]

/-- A ten-row table with page size 2, on page 1. -/
def t10 : Table :=
  { cfg := { selectable := false, mode := Mode.multiple, itemsPerPage := 2 },
    data := dataN 10,
    state := { sortConfig := none, selectedRows := ∅, currentPage := 1 } }

/-- A selectable three-row table in multiple mode. -/
def t3 : Table :=
  { cfg := { selectable := true, mode := Mode.multiple, itemsPerPage := 10 },
    data := rows3,
    state := { sortConfig := none, selectedRows := ∅, currentPage := 1 } }

/-- Token comparison is antisymmetric: swapping the arguments swaps the
ordering. -/
theorem tokCmp_swap (x y : Tok) : tokCmp x y = (tokCmp y x).swap := by
  cases x with
  | num m =>
    cases y with
    | num n =>
      rcases Nat.lt_trichotomy m n with h | h | h
      · simp [tokCmp, h, Nat.lt_asymm h, Ordering.swap]
      · simp [tokCmp, h, Nat.lt_irrefl, Ordering.swap]
      · simp [tokCmp, h, Nat.lt_asymm h, Ordering.swap]
    | ch d => simp [tokCmp, Ordering.swap]
  | ch c =>
    cases y with
    | num n => simp [tokCmp, Ordering.swap]
    | ch d =>
      rcases lt_trichotomy c d with h | h | h
      · simp [tokCmp, h, lt_asymm h, Ordering.swap]
      · simp [tokCmp, h, lt_irrefl, Ordering.swap]
      · simp [tokCmp, h, lt_asymm h, Ordering.swap]

/-- Lexicographic token-list comparison is antisymmetric. -/
theorem lexCmp_swap : ∀ (a b : List Tok), lexCmp a b = (lexCmp b a).swap
  | [], [] => rfl
  | [], _ :: _ => rfl
  | _ :: _, [] => rfl
  | x :: xs, y :: ys => by
    have hx : tokCmp x y = (tokCmp y x).swap := tokCmp_swap x y
    cases h : tokCmp y x <;> rw [h] at hx <;>
      simp [lexCmp, hx, h, Ordering.swap, lexCmp_swap xs ys]

/-- Swapping an ordering negates its integer sign. -/
theorem ordToInt_swap (o : Ordering) : ordToInt o.swap = -(ordToInt o) := by
  cases o <;> rfl

/-- String comparison is antisymmetric. -/
theorem strCmp_neg (a b : String) : strCmp a b = -(strCmp b a) := by
  unfold strCmp
  rw [lexCmp_swap, ordToInt_swap]

/-- The value comparator is antisymmetric: `compare a b = -(compare b a)`. -/
theorem compare_neg (a b : Value) : compare a b = -(compare b a) := by
  cases a <;> cases b <;> simp only [compare] <;>
    first
    | omega
    | exact strCmp_neg _ _

/-- The row comparator is antisymmetric in both directions. -/
theorem rowCmp_neg (c : SortConfig) (x y : Row) : rowCmp c x y = -(rowCmp c y x) := by
  obtain ⟨k, d⟩ := c
  have h := compare_neg (getField x k) (getField y k)
  cases d <;> simp [rowCmp] <;> omega

/-- Totality of the boolean relation induced by the comparator. -/
theorem rowLe_total (c : SortConfig) (x y : Row) :
    rowLe c x y = true ∨ rowLe c y x = true := by
  unfold rowLe
  rcases le_or_lt (rowCmp c x y) 0 with h | h
  · exact Or.inl (by simpa using h)
  · refine Or.inr ?_
    have := rowCmp_neg c x y
    simp only [decide_eq_true_eq]
    omega

/-- Membership in a stable insertion. -/
theorem mem_insertS {α : Type} (le : α → α → Bool) (x a : α) :
    ∀ (l : List α), a ∈ insertS le x l ↔ a = x ∨ a ∈ l
  | [] => by simp [insertS]
  | y :: ys => by
    by_cases h : le x y = true
    · simp [insertS, h]
    · rw [insertS, if_neg h]
      simp [mem_insertS le x a ys]
      tauto

/-- Stable insertion produces a permutation of consing. -/
theorem insertS_perm {α : Type} (le : α → α → Bool) (x : α) :
    ∀ (l : List α), (insertS le x l).Perm (x :: l)
  | [] => List.Perm.refl _
  | y :: ys => by
    by_cases h : le x y = true
    · simp [insertS, h]
    · rw [insertS, if_neg h]
      exact ((insertS_perm le x ys).cons y).trans (List.Perm.swap x y ys)

/-- The stable sort permutes its input. -/
theorem sortS_perm {α : Type} (le : α → α → Bool) :
    ∀ (l : List α), (sortS le l).Perm l
  | [] => List.Perm.refl _
  | x :: xs =>
    (insertS_perm le x (sortS le xs)).trans ((sortS_perm le xs).cons x)

/-- Membership is preserved by the stable sort. -/
theorem mem_sortS {α : Type} (le : α → α → Bool) (l : List α) (a : α) :
    a ∈ sortS le l ↔ a ∈ l :=
  (sortS_perm le l).mem_iff

/-- Inserting into a pairwise-ordered list keeps it pairwise ordered,
provided the relation is total and transitive on the elements involved. -/
theorem pairwise_insertS {α : Type} (le : α → α → Bool)
    (htot : ∀ a b, le a b = true ∨ le b a = true) (x : α) :
    ∀ (l : List α),
      (∀ a ∈ x :: l, ∀ b ∈ x :: l, ∀ d ∈ x :: l,
        le a b = true → le b d = true → le a d = true) →
      l.Pairwise (fun a b => le a b = true) →
      (insertS le x l).Pairwise (fun a b => le a b = true)
  | [], _, _ => by simp [insertS]
  | y :: ys, htr, hl => by
    rcases List.pairwise_cons.mp hl with ⟨hy, hys⟩
    by_cases h : le x y = true
    · rw [insertS, if_pos h]
      refine List.pairwise_cons.mpr ⟨?_, hl⟩
      intro b hb
      rcases List.mem_cons.mp hb with rfl | hb
      · exact h
      · exact htr x (by simp) y (by simp) b (by simp [hb]) h (hy b hb)
    · rw [insertS, if_neg h]
      have hyx : le y x = true := (htot x y).resolve_left h
      refine List.pairwise_cons.mpr ⟨?_, ?_⟩
      · intro b hb
        rcases (mem_insertS le x b ys).mp hb with rfl | hb
        · exact hyx
        · exact hy b hb
      · exact pairwise_insertS le htot x ys
          (fun a ha b hb d hd => htr a (by
              rcases List.mem_cons.mp ha with rfl | ha
              · simp
              · simp [ha])
            b (by
              rcases List.mem_cons.mp hb with rfl | hb
              · simp
              · simp [hb])
            d (by
              rcases List.mem_cons.mp hd with rfl | hd
              · simp
              · simp [hd]))
          hys

/-- The stable sort output is pairwise ordered whenever the relation is
total (always true for `rowLe`) and transitive on the input's elements. -/
theorem sortS_pairwise {α : Type} (le : α → α → Bool)
    (htot : ∀ a b, le a b = true ∨ le b a = true) :
    ∀ (l : List α),
      (∀ a ∈ l, ∀ b ∈ l, ∀ d ∈ l,
        le a b = true → le b d = true → le a d = true) →
      (sortS le l).Pairwise (fun a b => le a b = true)
  | [], _ => by simp [sortS]
  | x :: xs, htr => by
    rw [sortS]
    refine pairwise_insertS le htot x (sortS le xs) ?_ ?_
    · intro a ha b hb d hd
      have hmem : ∀ c, c ∈ x :: sortS le xs → c ∈ x :: xs := by
        intro c hc
        rcases List.mem_cons.mp hc with rfl | hc
        · simp
        · simp [(mem_sortS le xs c).mp hc]
      exact htr a (hmem a ha) b (hmem b hb) d (hmem d hd)
    · exact sortS_pairwise le htot xs
        (fun a ha b hb d hd =>
          htr a (by simp [ha]) b (by simp [hb]) d (by simp [hd]))

/-- Filtering an insertion by a predicate whose holders are pairwise
not-after each other: the inserted element lands in front of every holder
already present, so the filtered result is a plain cons. -/
theorem filter_insertS {α : Type} (le : α → α → Bool) (p : α → Bool) (x : α) :
    ∀ (l : List α),
      (∀ a ∈ x :: l, ∀ b ∈ x :: l, p a = true → p b = true → le a b = true) →
      (insertS le x l).filter p =
        if p x = true then x :: l.filter p else l.filter p
  | [], _ => by
    by_cases hx : p x = true <;> simp [insertS, List.filter, hx]
  | y :: ys, hp => by
    by_cases h : le x y = true
    · rw [insertS, if_pos h]
      by_cases hx : p x = true <;> simp [List.filter_cons, hx]
    · rw [insertS, if_neg h]
      have ih := filter_insertS le p x ys (by
        intro a ha b hb hpa hpb
        refine hp a ?_ b ?_ hpa hpb
        · rcases List.mem_cons.mp ha with rfl | ha
          · simp
          · simp [ha]
        · rcases List.mem_cons.mp hb with rfl | hb
          · simp
          · simp [hb])
      by_cases hx : p x = true
      · have hy : p y = false := by
          by_cases hy : p y = true
          · exact absurd (hp x (by simp) y (by simp) hx hy) h
          · simpa using hy
        simp [List.filter_cons, hy, ih, hx]
      · have hx' : p x = false := by simpa using hx
        by_cases hy : p y = true <;>
          simp [List.filter_cons, hy, ih, hx']

/-- Stability of the stable sort, filter form: restricted to any class of
rows that compare pairwise not-after each other, sorting is the identity
on the subsequence, i.e. equal rows keep their input order. -/
theorem sortS_filter {α : Type} (le : α → α → Bool) (p : α → Bool) :
    ∀ (l : List α),
      (∀ a ∈ l, ∀ b ∈ l, p a = true → p b = true → le a b = true) →
      (sortS le l).filter p = l.filter p
  | [], _ => rfl
  | x :: xs, hp => by
    rw [sortS]
    rw [filter_insertS le p x (sortS le xs) (by
      intro a ha b hb hpa hpb
      have hmem : ∀ c, c ∈ x :: sortS le xs → c ∈ x :: xs := by
        intro c hc
        rcases List.mem_cons.mp hc with rfl | hc
        · simp
        · simp [(mem_sortS le xs c).mp hc]
      exact hp a (hmem a ha) b (hmem b hb) hpa hpb)]
    rw [sortS_filter le p xs
      (fun a ha b hb => hp a (by simp [ha]) b (by simp [hb]))]
    by_cases hx : p x = true <;> simp [List.filter_cons, hx]

/-- Inserting into an adjacently-ordered list keeps it adjacently ordered,
assuming only totality of the relation. -/
theorem chain'_insertS {α : Type} (le : α → α → Bool)
    (htot : ∀ a b, le a b = true ∨ le b a = true) (x : α) :
    ∀ (l : List α), l.Chain' (fun a b => le a b = true) →
      (insertS le x l).Chain' (fun a b => le a b = true)
  | [], _ => by simp [insertS]
  | y :: ys, hl => by
    by_cases h : le x y = true
    · rw [insertS, if_pos h]
      exact List.chain'_cons.mpr ⟨h, hl⟩
    · rw [insertS, if_neg h]
      have hyx : le y x = true := (htot x y).resolve_left h
      have hch : (insertS le x ys).Chain' (fun a b => le a b = true) :=
        chain'_insertS le htot x ys hl.tail
      refine List.chain'_cons'.mpr ⟨?_, hch⟩
      intro z hz
      cases ys with
      | nil =>
        simp [insertS] at hz
        subst hz
        exact hyx
      | cons w ws =>
        by_cases hw : le x w = true
        · rw [insertS, if_pos hw] at hz
          simp at hz
          subst hz
          exact hyx
        · rw [insertS, if_neg hw] at hz
          simp at hz
          subst hz
          exact (List.chain'_cons.mp hl).1

/-- The stable sort always produces an adjacently-ordered list. -/
theorem sortS_chain' {α : Type} (le : α → α → Bool)
    (htot : ∀ a b, le a b = true ∨ le b a = true) :
    ∀ (l : List α), (sortS le l).Chain' (fun a b => le a b = true)
  | [] => by simp [sortS]
  | x :: xs => chain'_insertS le htot x (sortS le xs) (sortS_chain' le htot xs)

/-- An adjacently-ordered list is a fixed point of the stable sort. -/
theorem sortS_eq_of_chain' {α : Type} (le : α → α → Bool) :
    ∀ (l : List α), l.Chain' (fun a b => le a b = true) → sortS le l = l
  | [], _ => rfl
  | x :: xs, h => by
    rw [sortS, sortS_eq_of_chain' le xs h.tail]
    cases xs with
    | nil => rfl
    | cons y ys =>
      rw [insertS, if_pos (List.chain'_cons.mp h).1]

/-- The stable sort is idempotent (with no assumptions beyond the built-in
totality of the comparator relation). -/
theorem sortS_idem {α : Type} (le : α → α → Bool)
    (htot : ∀ a b, le a b = true ∨ le b a = true) (l : List α) :
    sortS le (sortS le l) = sortS le l :=
  sortS_eq_of_chain' le (sortS le l) (sortS_chain' le htot l)

/-- Shifting the page slice: page `i + 2` of a list is page `i + 1` of the
list with its first page removed. -/
theorem paginatedData_succ {α : Type} (l : List α) (i ps : Nat) :
    paginatedData l (i + 2) ps = paginatedData (l.drop ps) (i + 1) ps := by
  unfold paginatedData
  rw [List.drop_drop]
  have h : ps + (i + 1 - 1) * ps = (i + 2 - 1) * ps := by
    have h1 : i + 1 - 1 = i := by omega
    have h2 : i + 2 - 1 = i + 1 := by omega
    rw [h1, h2]
    ring
  rw [h]

/-- The page slices for pages `1 .. totalPages` concatenate back to the
whole list, for any positive page size. -/
theorem pages_cover {α : Type} (ps : Nat) (hps : 1 ≤ ps) :
    ∀ (n : Nat) (l : List α), l.length = n →
      (List.range (totalPages n ps)).flatMap
        (fun i => paginatedData l (i + 1) ps) = l := by
  intro n
  induction n using Nat.strong_induction_on with
  | _ n ih =>
    intro l hl
    by_cases hn : n ≤ ps
    · have htp : totalPages n ps = 1 := by
        unfold totalPages
        have hd : (n + ps - 1) / ps < 2 := by
          rw [Nat.div_lt_iff_lt_mul (by omega)]
          omega
        omega
      rw [htp]
      have hr : List.range 1 = [0] := rfl
      rw [hr, List.flatMap_cons, List.flatMap_nil, List.append_nil]
      unfold paginatedData
      simp only [Nat.zero_add, Nat.sub_self, Nat.zero_mul, List.drop_zero]
      exact List.take_of_length_le (by omega)
    · push_neg at hn
      obtain ⟨m, rfl⟩ : ∃ m, n = m + ps := ⟨n - ps, by omega⟩
      have htp : totalPages (m + ps) ps = totalPages (m + ps - ps) ps + 1 := by
        unfold totalPages
        have e0 : m + ps - ps = m := by omega
        have e1 : m + ps + ps - 1 = (m + ps - 1) + ps := by omega
        rw [e0, e1, Nat.add_div_right _ (by omega)]
        have hA : 1 ≤ (m + ps - 1) / ps :=
          (Nat.le_div_iff_mul_le (by omega)).mpr (by omega)
        rw [Nat.max_eq_right hA, Nat.max_eq_right (Nat.le_add_left 1 _)]
      rw [show m + ps - ps = m by omega] at htp
      rw [htp, List.range_succ_eq_map, List.flatMap_cons, List.flatMap_map]
      have hcong : ∀ i : Nat,
          paginatedData l (Nat.succ i + 1) ps = paginatedData (l.drop ps) (i + 1) ps :=
        fun i => paginatedData_succ l i ps
      simp only [Function.comp, hcong]
      rw [ih m (by omega) (l.drop ps)
        (by rw [List.length_drop, hl]; omega)]
      have h1 : paginatedData l 1 ps = l.take ps := by
        unfold paginatedData
        simp
      rw [h1, List.take_append_drop]

/-- Characterization of `totalPages` as a ceiling: for a nonempty dataset
the pages cover the row count with the last page nonempty. -/
theorem totalPages_bounds (ps : Nat) (hps : 1 ≤ ps) (n : Nat) (hn : 1 ≤ n) :
    (totalPages n ps - 1) * ps < n ∧ n ≤ totalPages n ps * ps := by
  unfold totalPages
  set q := (n + ps - 1) / ps with hq
  have hub : n + ps - 1 < (q + 1) * ps :=
    (Nat.div_lt_iff_lt_mul (by omega)).mp (Nat.lt_succ_self q)
  have hlb : q * ps ≤ n + ps - 1 := Nat.div_mul_le_self _ _
  have hq1 : 1 ≤ q := (Nat.le_div_iff_mul_le (by omega)).mpr (by omega)
  rw [Nat.max_eq_right hq1]
  rw [Nat.add_mul] at hub
  rw [Nat.sub_mul]
  omega

/-- On a render with unchanged data length, one effect pass reduces to the
clamp alone (the reset effect's dependency did not change). -/
theorem effectFlush_same_len (len p q ps : Nat) :
    effectFlush len p len q ps =
      if q ≠ p ∧ totalPages len ps < q then totalPages len ps else q := by
  simp [effectFlush]

/-- A second effect pass after a flush is a no-op: the page value written by
`effectFlush` is a fixed point of the effects. -/
theorem effectFlush_settled (len a b ps : Nat) :
    effectFlush len b len (effectFlush len a len b ps) ps =
      effectFlush len a len b ps := by
  rw [effectFlush_same_len len a b ps, effectFlush_same_len len b]
  by_cases h : b ≠ a ∧ totalPages len ps < b
  · rw [if_pos h]
    rw [if_neg (by omega)]
  · rw [if_neg h]
    rw [if_neg (by omega)]

/-- The settled page after a data-length change: the reset effect writes 1,
but when the stale page exceeds the new total-page count the clamp effect
fires in the same batch and its write lands last. -/
theorem dataUpdatePage_eq (prevLen p curLen ps : Nat)
    (hlen : curLen ≠ prevLen) (h1 : 1 ≤ p)
    (hinv : p ≤ totalPages prevLen ps) :
    dataUpdatePage prevLen p curLen ps =
      if totalPages curLen ps < p then totalPages curLen ps else 1 := by
  have htp1 : 1 ≤ totalPages curLen ps := le_max_left 1 _
  have hp1 : effectFlush prevLen p curLen p ps =
      if totalPages curLen ps < p then totalPages curLen ps else 1 := by
    unfold effectFlush
    by_cases h : totalPages curLen ps < p
    · rw [if_pos ⟨Or.inl (by omega), h⟩, if_pos h]
    · rw [if_neg (by
        intro hc
        exact h hc.2)]
      rw [if_neg h, if_pos hlen]
  unfold dataUpdatePage
  rw [hp1, effectFlush_same_len]
  by_cases h : totalPages curLen ps < p
  · rw [if_pos h, if_neg (by omega)]
  · rw [if_neg h, if_neg (by omega)]

/-- C1: starting from 10 rows with page size 2, four next-page clicks reach
page 5 of 5; replacing the data with 3 rows (2 pages) settles the current
page at 2, the new total-page count.  The reset effect writes 1, but the
clamp effect, whose dependencies also changed, runs after it in the same
batch with the stale page value 5 and overwrites the 1 with 2. -/
theorem c1_page_clamp_on_shrink :
    (run t10 [Event.nextPage, Event.nextPage, Event.nextPage,
      Event.nextPage]).state.currentPage = 5 ∧
    (run t10 [Event.nextPage, Event.nextPage, Event.nextPage, Event.nextPage,
      Event.dataChange (dataN 3)]).state.currentPage = 2 ∧
    totalPages (dataN 3).length t10.cfg.itemsPerPage = 2 := by
  refine ⟨rfl, rfl, rfl⟩

/-- C2 counterexample: in the very scenario of C1 (10 rows, page size 2, on
page 5, data replaced by 3 rows -- a length change), the settled current
page is 2, not 1, so the page does not always reset to 1 on a row-count
change. -/
theorem c2_reset_counterexample :
    (run t10 [Event.nextPage, Event.nextPage, Event.nextPage, Event.nextPage,
      Event.dataChange (dataN 3)]).state.currentPage ≠ 1 := by
  decide

/-- C2 amended: after a data replacement with a different length, the
settled current page is 1 unless the previous page exceeds the new
total-page count, in which case the clamp effect wins and the page becomes
the new total-page count. -/
theorem c2_data_change_page (t : Table) (d : List Row)
    (hlen : d.length ≠ t.data.length) (h1 : 1 ≤ t.state.currentPage)
    (hinv : t.state.currentPage ≤ totalPages t.data.length t.cfg.itemsPerPage) :
    ((step t (Event.dataChange d)).1).state.currentPage =
      if totalPages d.length t.cfg.itemsPerPage < t.state.currentPage
      then totalPages d.length t.cfg.itemsPerPage
      else 1 :=
  dataUpdatePage_eq t.data.length t.state.currentPage d.length
    t.cfg.itemsPerPage hlen h1 hinv

/-- Witness for the amended C2, at a table on page 1 of 5 whose data shrinks
to 3 rows: the hypotheses hold and the page settles at 1. -/
theorem c2_data_change_page_witness :
    (dataN 3).length ≠ t10.data.length ∧
    1 ≤ t10.state.currentPage ∧
    t10.state.currentPage ≤ totalPages t10.data.length t10.cfg.itemsPerPage ∧
    ((step t10 (Event.dataChange (dataN 3))).1).state.currentPage =
      if totalPages (dataN 3).length t10.cfg.itemsPerPage < t10.state.currentPage
      then totalPages (dataN 3).length t10.cfg.itemsPerPage
      else 1 :=
  ⟨by decide, by decide, by decide,
    c2_data_change_page t10 (dataN 3) (by decide) (by decide) (by decide)⟩

/-- C3 counterexample: on the cycle dataset (values -5, -3, "-4") the
derived sorted sequence is not pairwise ordered by the comparator; indeed
no permutation of these rows is, because the comparator is cyclic on them
(numbers compare numerically, but each number compares with the string
"-4" through numeric-aware string comparison). -/
theorem c3_order_counterexample :
    (¬ (sortedData dataCyc (some cfgAge)).Pairwise
        (fun x y => rowLe cfgAge x y = true)) ∧
    ∀ l ∈ dataCyc.permutations',
      ¬ l.Pairwise (fun x y => rowLe cfgAge x y = true) := by
  decide

/-- C3 amended: with a null sort configuration the derived sequence is the
input itself; with an active configuration it is a permutation of the
input, and it is pairwise ordered by the comparator provided the comparator
is transitive on the rows of the input (which the counterexample shows can
fail when negative numbers are mixed with strings). -/
theorem c3_sortedData_ordered (data : List Row) (c : SortConfig) :
    sortedData data none = data ∧
    (sortedData data (some c)).Perm data ∧
    ((∀ x ∈ data, ∀ y ∈ data, ∀ z ∈ data,
        rowLe c x y = true → rowLe c y z = true → rowLe c x z = true) →
      (sortedData data (some c)).Pairwise (fun x y => rowLe c x y = true)) := by
  refine ⟨rfl, sortS_perm (rowLe c) data, ?_⟩
  intro htr
  exact sortS_pairwise (rowLe c) (rowLe_total c) data htr

/-- Witness for the amended C3 on the spec's three-row example, sorted
ascending by age. -/
theorem c3_sortedData_ordered_witness :
    (∀ x ∈ rows3, ∀ y ∈ rows3, ∀ z ∈ rows3,
      rowLe cfgAge x y = true → rowLe cfgAge y z = true →
      rowLe cfgAge x z = true) ∧
    (sortedData rows3 (some cfgAge)).Pairwise
      (fun x y => rowLe cfgAge x y = true) :=
  ⟨by decide, (c3_sortedData_ordered rows3 cfgAge).2.2 (by decide)⟩

/-- C4: the sort is stable -- restricted to any class of rows whose
sort-key values compare equal, sorting is the identity on the subsequence,
so equal rows keep their relative input order -- and sorting is idempotent
for every configuration. -/
theorem c4_sort_stable_idempotent (data : List Row) (c : SortConfig)
    (p : Row → Bool) :
    ((∀ x ∈ data, ∀ y ∈ data, p x = true → p y = true → rowCmp c x y = 0) →
      (sortedData data (some c)).filter p = data.filter p) ∧
    ∀ sc : Option SortConfig,
      sortedData (sortedData data sc) sc = sortedData data sc := by
  constructor
  · intro hp
    refine sortS_filter (rowLe c) p data ?_
    intro a ha b hb hpa hpb
    have h0 := hp a ha b hb hpa hpb
    simp only [rowLe, decide_eq_true_eq]
    omega
  · intro sc
    cases sc with
    | none => rfl
    | some c2 => exact sortS_idem (rowLe c2) (rowLe_total c2) data

/-- Witness for C4 on rows with duplicate age 25: the equal-age class
keeps its input order through the sort. -/
theorem c4_sort_stable_idempotent_witness :
    (∀ x ∈ rowsDup, ∀ y ∈ rowsDup,
      (fun r => getField r "age" == Value.num 25) x = true →
      (fun r => getField r "age" == Value.num 25) y = true →
      rowCmp cfgAge x y = 0) ∧
    (sortedData rowsDup (some cfgAge)).filter
        (fun r => getField r "age" == Value.num 25) =
      rowsDup.filter (fun r => getField r "age" == Value.num 25) :=
  ⟨by decide,
    (c4_sort_stable_idempotent rowsDup cfgAge
      (fun r => getField r "age" == Value.num 25)).1 (by decide)⟩

/-- C5: clicking a non-sortable column never changes the sort
configuration; clicking a sortable column with key `k` from the unsorted
state or a state sorted on another key yields ascending on `k`, and three
consecutive clicks yield ascending, descending, ascending -- a two-state
cycle that never returns to unsorted. -/
theorem c5_handleSort_transitions (k : String) :
    (∀ sc : Option SortConfig, handleSort sc k false = sc) ∧
    (∀ s0 : Option SortConfig,
      (∀ c : SortConfig, s0 = some c → c.key ≠ k) →
      (handleSort s0 k true = some { key := k, direction := Direction.asc } ∧
       handleSort (handleSort s0 k true) k true =
         some { key := k, direction := Direction.desc } ∧
       handleSort (handleSort (handleSort s0 k true) k true) k true =
         some { key := k, direction := Direction.asc })) := by
  constructor
  · intro sc
    simp [handleSort]
  · intro s0 h
    have h1 : handleSort s0 k true = some { key := k, direction := Direction.asc } := by
      cases s0 with
      | none => simp [handleSort]
      | some c =>
        have hck := h c rfl
        simp [handleSort, hck]
    have h2 : handleSort (some { key := k, direction := Direction.asc }) k true =
        some { key := k, direction := Direction.desc } := by
      simp [handleSort]
    have h3 : handleSort (some { key := k, direction := Direction.desc }) k true =
        some { key := k, direction := Direction.asc } := by
      simp [handleSort]
    exact ⟨h1, by rw [h1, h2], by rw [h1, h2, h3]⟩

/-- Witness for C5: the three-click cycle on key "age" starting from the
unsorted state. -/
theorem c5_handleSort_transitions_witness :
    (∀ c : SortConfig, (none : Option SortConfig) = some c → c.key ≠ "age") ∧
    (handleSort none "age" true = some { key := "age", direction := Direction.asc } ∧
     handleSort (handleSort none "age" true) "age" true =
       some { key := "age", direction := Direction.desc } ∧
     handleSort (handleSort (handleSort none "age" true) "age" true) "age" true =
       some { key := "age", direction := Direction.asc }) :=
  ⟨fun c hc => Option.noConfusion hc,
    (c5_handleSort_transitions "age").2 none (fun c hc => Option.noConfusion hc)⟩

/-- C6: the total-page count is the clamped ceiling of rows over page size
(characterized by the covering inequalities), and the page slices for pages
1 through totalPages concatenate exactly back to the sorted sequence -- no
element missing and none duplicated. -/
theorem c6_pagination_coverage (ps : Nat) (hps : 1 ≤ ps)
    (data : List Row) (sc : Option SortConfig) :
    ((List.range (totalPages data.length ps)).flatMap
        (fun i => paginatedData (sortedData data sc) (i + 1) ps) =
      sortedData data sc) ∧
    (∀ n : Nat, totalPages n ps = max 1 ((n + ps - 1) / ps)) ∧
    (∀ n : Nat, 1 ≤ n →
      (totalPages n ps - 1) * ps < n ∧ n ≤ totalPages n ps * ps) ∧
    totalPages 0 ps = 1 := by
  refine ⟨?_, fun n => rfl, fun n hn => totalPages_bounds ps hps n hn, ?_⟩
  · have hlen : (sortedData data sc).length = data.length := by
      cases sc with
      | none => rfl
      | some c => exact (sortS_perm (rowLe c) data).length_eq
    rw [← hlen]
    exact pages_cover ps hps _ _ rfl
  · unfold totalPages
    rw [Nat.div_eq_of_lt (by omega)]
    omega

/-- Witness for C6: page size 2 over the sorted three-row example. -/
theorem c6_pagination_coverage_witness :
    1 ≤ 2 ∧
    (List.range (totalPages rows3.length 2)).flatMap
        (fun i => paginatedData (sortedData rows3 (some cfgAge)) (i + 1) 2) =
      sortedData rows3 (some cfgAge) :=
  ⟨by decide, (c6_pagination_coverage 2 (by decide) rows3 (some cfgAge)).1⟩

/-- C7: in multiple mode, select-all clears a selection whose size equals
the row count and otherwise selects all row ids; and both selection
mutations notify the callback with exactly the rows of the full (unsorted,
unpaginated) dataset whose ids are in the new selection, in dataset
order. -/
theorem c7_selectAll_and_payload (data : List Row) (prev : Finset RowId)
    (r : Row) :
    (prev.card = data.length →
      (handleSelectAll true Mode.multiple data prev).1 = (∅ : Finset RowId)) ∧
    (prev.card ≠ data.length →
      (handleSelectAll true Mode.multiple data prev).1 =
        (data.map (fun x => x.id)).toFinset) ∧
    (∀ next pay, handleSelectAll true Mode.multiple data prev = (next, pay) →
      pay = some (data.filter (fun d => decide (d.id ∈ next)))) ∧
    (∀ next pay, handleSelectRow true Mode.multiple data r prev = (next, pay) →
      pay = some (data.filter (fun d => decide (d.id ∈ next)))) ∧
    (∀ ids : Finset RowId, (notifySelection data ids).Sublist data) := by
  refine ⟨?_, ?_, ?_, ?_, ?_⟩
  · intro h
    simp [handleSelectAll, h]
  · intro h
    simp [handleSelectAll, h]
  · intro next pay he
    by_cases h : prev.card = data.length
    · simp [handleSelectAll, h] at he
      obtain ⟨rfl, rfl⟩ := he
      rfl
    · simp [handleSelectAll, h] at he
      obtain ⟨rfl, rfl⟩ := he
      rfl
  · intro next pay he
    simp [handleSelectRow] at he
    obtain ⟨rfl, rfl⟩ := he
    rfl
  · intro ids
    exact List.filter_sublist data

/-- Witness for C7: select-all over the three-row dataset from the empty
selection selects every id. -/
theorem c7_selectAll_and_payload_witness :
    (∅ : Finset RowId).card ≠ rows3.length ∧
    (handleSelectAll true Mode.multiple rows3 (∅ : Finset RowId)).1 =
      (rows3.map (fun x => x.id)).toFinset :=
  ⟨by decide,
    (c7_selectAll_and_payload rows3 (∅ : Finset RowId)
      (mkRow 1 (Value.num 30))).2.1 (by decide)⟩

/-- C8: in single mode, toggling the sole selected row clears the
selection; toggling a row not in the selection replaces it with exactly
that row, so selecting row A and then row B leaves exactly B; select-all
is a no-op (no state change and no callback). -/
theorem c8_single_mode (data : List Row) (r : Row) (prev : Finset RowId) :
    (prev = {r.id} →
      (handleSelectRow true Mode.single data r prev).1 = (∅ : Finset RowId)) ∧
    (r.id ∉ prev →
      (handleSelectRow true Mode.single data r prev).1 = {r.id}) ∧
    (∀ a b : Row, a.id ≠ b.id →
      (handleSelectRow true Mode.single data b
        ((handleSelectRow true Mode.single data a (∅ : Finset RowId)).1)).1 =
        {b.id}) ∧
    handleSelectAll true Mode.single data prev = (prev, none) := by
  refine ⟨?_, ?_, ?_, ?_⟩
  · intro h
    subst h
    simp [handleSelectRow]
  · intro h
    simp [handleSelectRow, h]
  · intro a b hab
    have h1 : (handleSelectRow true Mode.single data a (∅ : Finset RowId)).1 =
        {a.id} := by
      simp [handleSelectRow]
    rw [h1]
    have hb : b.id ∉ ({a.id} : Finset RowId) := by
      simp only [Finset.mem_singleton]
      exact Ne.symm hab
    simp [handleSelectRow, hb]
  · simp [handleSelectAll]

/-- Witness for C8: selecting row 1 then row 2 from the empty selection in
single mode leaves exactly row 2 selected. -/
theorem c8_single_mode_witness :
    (mkRow 1 (Value.num 30)).id ≠ (mkRow 2 (Value.num 25)).id ∧
    (handleSelectRow true Mode.single rows3 (mkRow 2 (Value.num 25))
      ((handleSelectRow true Mode.single rows3 (mkRow 1 (Value.num 30))
        (∅ : Finset RowId)).1)).1 = {(mkRow 2 (Value.num 25)).id} :=
  ⟨by decide,
    (c8_single_mode rows3 (mkRow 1 (Value.num 30)) (∅ : Finset RowId)).2.2.1
      (mkRow 1 (Value.num 30)) (mkRow 2 (Value.num 25)) (by decide)⟩

/-- C9: page navigation never touches the selection: any sequence of
next/previous events leaves the selection set exactly as it was. -/
theorem c9_navigation_preserves_selection (t : Table) (evs : List Event)
    (h : ∀ e ∈ evs, e = Event.nextPage ∨ e = Event.prevPage) :
    (run t evs).state.selectedRows = t.state.selectedRows := by
  induction evs generalizing t with
  | nil => rfl
  | cons e es ih =>
    have hrest : ∀ x ∈ es, x = Event.nextPage ∨ x = Event.prevPage :=
      fun x hx => h x (by simp [hx])
    rcases h e (by simp) with rfl | rfl
    · show (run (step t Event.nextPage).1 es).state.selectedRows = _
      rw [ih (step t Event.nextPage).1 hrest]
      rfl
    · show (run (step t Event.prevPage).1 es).state.selectedRows = _
      rw [ih (step t Event.prevPage).1 hrest]
      rfl

/-- Witness for C9: going to the next page and back on the selectable
three-row table leaves the (empty) selection unchanged. -/
theorem c9_navigation_preserves_selection_witness :
    (∀ e ∈ [Event.nextPage, Event.prevPage],
      e = Event.nextPage ∨ e = Event.prevPage) ∧
    (run t3 [Event.nextPage, Event.prevPage]).state.selectedRows =
      t3.state.selectedRows :=
  ⟨by decide,
    c9_navigation_preserves_selection t3 [Event.nextPage, Event.prevPage]
      (by decide)⟩

/-- C10: replacing the data prop never modifies the selection set (only
the two selection handlers do); a previously selected id with no matching
row in the current data is omitted from every notification payload, yet it
stays in the selection set across toggles of other rows. -/
theorem c10_data_change_selection_frame (t : Table) (d : List Row)
    (sel : Finset RowId) (i : RowId) (r : Row) :
    ((step t (Event.dataChange d)).1).state.selectedRows =
      t.state.selectedRows ∧
    (∀ k s, ((step t (Event.headerClick k s)).1).state.selectedRows =
      t.state.selectedRows) ∧
    ((step t Event.nextPage).1).state.selectedRows = t.state.selectedRows ∧
    ((step t Event.prevPage).1).state.selectedRows = t.state.selectedRows ∧
    (i ∈ sel → i ∉ d.map (fun x => x.id) →
      ((∀ row ∈ notifySelection d sel, row.id ≠ i) ∧
       (r.id ≠ i → i ∈ (handleSelectRow true Mode.multiple d r sel).1))) := by
  refine ⟨rfl, fun k s => rfl, rfl, rfl, ?_⟩
  intro hi hnot
  constructor
  · intro row hrow heq
    apply hnot
    rw [← heq]
    have hrow' : row ∈ d.filter (fun x => decide (x.id ∈ sel)) := hrow
    exact List.mem_map_of_mem (fun x => x.id) (List.mem_filter.mp hrow').1
  · intro hri
    by_cases h : r.id ∈ sel
    · simp only [handleSelectRow, h]
      simp [Finset.mem_erase]
      exact ⟨Ne.symm hri, hi⟩
    · simp only [handleSelectRow, h]
      simp [Finset.mem_insert]
      exact Or.inr hi

/-- Witness for C10: the stale id 5 survives a data change to rows that do
not contain it, and the payload for that selection omits it. -/
theorem c10_data_change_selection_frame_witness :
    (Sum.inl 5 : RowId) ∈ ({Sum.inl 5} : Finset RowId) ∧
    (Sum.inl 5 : RowId) ∉ rows3.map (fun x => x.id) ∧
    (∀ row ∈ notifySelection rows3 ({Sum.inl 5} : Finset RowId),
      row.id ≠ (Sum.inl 5 : RowId)) :=
  ⟨by decide, by simp [rows3, mkRow],
    ((c10_data_change_selection_frame t3 rows3 ({Sum.inl 5} : Finset RowId)
      (Sum.inl 5) (mkRow 0 Value.null)).2.2.2.2 (by decide)
      (by simp [rows3, mkRow])).1⟩

end DataTable
